import Mathlib

set_option maxRecDepth 10000
set_option maxHeartbeats 2000000

namespace Ratatodo

/-- Largest value of Rust's usize on a 64-bit platform; saturating usize
arithmetic saturates here. -/
def USIZE_MAX : Nat := 2 ^ 64 - 1

/-- Task status (src/main.rs, enum Status). -/
inductive Status where
  | Upcoming
  | Active
  | Completed
deriving DecidableEq

/-- A task (src/main.rs, struct Task). Rust String is modelled as List Char. -/
structure Task where
  title : List Char
  info : List Char
  status : Status
deriving DecidableEq

/-- Constructor Task::new (src/main.rs). -/
def Task.new (status : Status) (title info : List Char) : Task :=
  { title := title, info := info, status := status }

/-- Selection state of the ratatui ListState used by the app (dependency
ratatui, widgets/list/state.rs). The scroll offset is omitted: it never
feeds back into the application logic modelled here. -/
structure ListState where
  selected : Option Nat
deriving DecidableEq

/-- Method ListState::select of ratatui: store the given index. -/
def ListState.select (_s : ListState) (index : Option Nat) : ListState :=
  { selected := index }

/-- Method ListState::select_next of ratatui: saturating_add 1 on the
current index, or 0 when nothing is selected. -/
def ListState.select_next (s : ListState) : ListState :=
  s.select (some (match s.selected with
    | some i => min (i + 1) USIZE_MAX
    | none => 0))

/-- Method ListState::select_previous of ratatui: saturating_sub 1 on the
current index, or usize::MAX when nothing is selected. -/
def ListState.select_previous (s : ListState) : ListState :=
  s.select (some (match s.selected with
    | some i => i - 1
    | none => USIZE_MAX))

/-- The ordered task collection plus its selection state
(src/main.rs, struct TodoList). -/
structure TodoList where
  items : List Task
  state : ListState
deriving DecidableEq

/-- Wrapper for the optional index of the task being edited
(src/main.rs, struct Index). -/
structure Index where
  index : Option Nat
deriving DecidableEq

/-- Which edit buffer receives keystrokes (src/main.rs, enum CurrentlyEditing). -/
inductive CurrentlyEditing where
  | Title
  | Info
deriving DecidableEq

/-- Interface mode (src/main.rs, enum Mode). -/
inductive Mode where
  | View
  | Edit
  | Help
deriving DecidableEq

/-- The application state (src/main.rs, struct App). -/
structure App where
  exit : Bool
  list : TodoList
  mode : Mode
  currently_editing : CurrentlyEditing
  editing_existing_item : Index
  title_field : List Char
  info_field : List Char
deriving DecidableEq

/-- Key codes the handler distinguishes; `other` stands for every key code
that falls into a catch-all arm of the source's matches. -/
inductive KeyCode where
  | char (c : Char)
  | esc
  | tab
  | enter
  | backspace
  | delete
  | up
  | down
  | left
  | right
  | other
deriving DecidableEq

/-- The status cycle applied by App::toggle_status (src/main.rs): the
match advancing Upcoming to Active to Completed and back to Upcoming. -/
def cycleStatus : Status → Status
  | Status.Upcoming => Status.Active
  | Status.Active => Status.Completed
  | Status.Completed => Status.Upcoming

/-- Method App::new_task (src/main.rs). The out-of-range indexing
self.list.items[i] is a Rust panic, modelled as none. -/
def App.new_task (a : App) : Option App :=
  if a.title_field.isEmpty then some a
  else
    match a.editing_existing_item.index with
    | some i =>
      if h : i < a.list.items.length then
        let revised := { a.list.items.get ⟨i, h⟩ with
          title := a.title_field, info := a.info_field }
        some { a with
          list := { a.list with items := a.list.items.set i revised },
          title_field := [], info_field := [],
          currently_editing := CurrentlyEditing.Title,
          editing_existing_item := { index := none } }
      else none
    | none =>
      some { a with
        list := { a.list with items :=
          a.list.items ++ [Task.new Status.Upcoming a.title_field a.info_field] },
        title_field := [], info_field := [],
        currently_editing := CurrentlyEditing.Title,
        editing_existing_item := { index := none } }

/-- Method App::edit_task (src/main.rs). Indexing with an out-of-range
selected index is a Rust panic, modelled as none. -/
def App.edit_task (a : App) : Option App :=
  match a.list.state.selected with
  | some i =>
    if h : i < a.list.items.length then
      some { a with
        title_field := (a.list.items.get ⟨i, h⟩).title,
        info_field := (a.list.items.get ⟨i, h⟩).info,
        editing_existing_item := { index := some i },
        mode := Mode.Edit }
    else none
  | none => some a

/-- Method App::delete_task (src/main.rs). Vec::remove with an
out-of-range index is a Rust panic, modelled as none. -/
def App.delete_task (a : App) : Option App :=
  match a.list.state.selected with
  | some i =>
    if i < a.list.items.length then
      some { a with list := { a.list with items := a.list.items.eraseIdx i } }
    else none
  | none => some a

/-- Method App::toggle_status (src/main.rs). Indexing with an
out-of-range selected index is a Rust panic, modelled as none. -/
def App.toggle_status (a : App) : Option App :=
  match a.list.state.selected with
  | some i =>
    if h : i < a.list.items.length then
      let cycled := { a.list.items.get ⟨i, h⟩ with
        status := cycleStatus (a.list.items.get ⟨i, h⟩).status }
      some { a with list := { a.list with items := a.list.items.set i cycled } }
    else none
  | none => some a

/-- Method App::toggle_editing_field (src/main.rs). -/
def App.toggle_editing_field (a : App) : App :=
  match a.currently_editing with
  | CurrentlyEditing.Title => { a with currently_editing := CurrentlyEditing.Info }
  | CurrentlyEditing.Info => { a with currently_editing := CurrentlyEditing.Title }

/-- Method App::handle_key_events (src/main.rs): dispatch on the current
mode, then on the key code, in the source's match order. none models a
Rust panic inside the invoked operation. -/
def App.handle_key_events (a : App) (k : KeyCode) : Option App :=
  match a.mode with
  | Mode.View =>
    match k with
    | KeyCode.char c =>
      if c = 'q' then some { a with exit := true }
      else if c = 'n' ∨ c = 'i' ∨ c = 'a' ∨ c = 'o' then some { a with mode := Mode.Edit }
      else if c = 'j' then
        some { a with list := { a.list with state := a.list.state.select_next } }
      else if c = 'k' then
        some { a with list := { a.list with state := a.list.state.select_previous } }
      else if c = 'h' then some { a with mode := Mode.Help }
      else if c = 'e' then a.edit_task
      else if c = 'd' then a.delete_task
      else if c = 'l' ∨ c = 't' then a.toggle_status
      else some a
    | KeyCode.down =>
      some { a with list := { a.list with state := a.list.state.select_next } }
    | KeyCode.up =>
      some { a with list := { a.list with state := a.list.state.select_previous } }
    | KeyCode.delete | KeyCode.backspace => a.delete_task
    | KeyCode.right | KeyCode.tab | KeyCode.left => a.toggle_status
    | _ => some a
  | Mode.Edit =>
    match k with
    | KeyCode.esc => some { a with mode := Mode.View }
    | KeyCode.tab | KeyCode.up | KeyCode.down => some a.toggle_editing_field
    | KeyCode.backspace =>
      match a.currently_editing with
      | CurrentlyEditing.Title => some { a with title_field := a.title_field.dropLast }
      | CurrentlyEditing.Info => some { a with info_field := a.info_field.dropLast }
    | KeyCode.enter =>
      match a.currently_editing with
      | CurrentlyEditing.Title => some { a with currently_editing := CurrentlyEditing.Info }
      | CurrentlyEditing.Info =>
        (a.new_task).map (fun b => { b with mode := Mode.View })
    | KeyCode.char c =>
      match a.currently_editing with
      | CurrentlyEditing.Title => some { a with title_field := a.title_field ++ [c] }
      | CurrentlyEditing.Info => some { a with info_field := a.info_field ++ [c] }
    | _ => some a
  | Mode.Help =>
    if k = KeyCode.esc then some { a with mode := Mode.View } else some a

/-- Effect on the ListState of rendering the ratatui List widget
(dependency ratatui, widgets/list/rendering.rs): with no items the
selection is cleared; an out-of-bounds selection is clamped to the last
item; otherwise the state is unchanged. -/
def TodoList.render_clamp (l : TodoList) : ListState :=
  if l.items.isEmpty then l.state.select none
  else
    match l.state.selected with
    | some i =>
      if l.items.length ≤ i then l.state.select (some (l.items.length - 1))
      else l.state
    | none => l.state

/-- State effect of App::draw (src/main.rs): only View mode renders the
task list, whose render clamps the ListState; Edit and Help mode render
no list and leave the state unchanged. -/
def App.draw (a : App) : App :=
  match a.mode with
  | Mode.View => { a with list := { a.list with state := a.list.render_clamp } }
  | Mode.Edit => a
  | Mode.Help => a

/-- One iteration of the run loop in App::run (src/main.rs): handle one
key press, then redraw before the next event is read. none models a
panic. -/
def App.step (a : App) (k : KeyCode) : Option App :=
  (a.handle_key_events k).map App.draw

/-- Run the loop of App::run over a list of key presses, starting after
the initial draw; none models a panic at some step. -/
def App.run_keys (a : App) : List KeyCode → Option App
  | [] => some a
  | k :: ks =>
    match a.step k with
    | some b => b.run_keys ks
    | none => none

/-- Initial state, impl Default for App (src/main.rs): empty list,
default ListState (nothing selected), View mode, empty buffers. -/
def App.default : App :=
  { exit := false,
    list := { items := [], state := { selected := none } },
    mode := Mode.View,
    title_field := [], info_field := [],
    currently_editing := CurrentlyEditing.Title,
    editing_existing_item := { index := none } }

/-- Process keys starting in Edit mode, requiring the interface to remain
in Edit mode after every event; none if some key leaves Edit mode or the
program fails. -/
def App.edit_steps (a : App) : List KeyCode → Option App
  | [] => some a
  | k :: ks =>
    match a.step k with
    | some b => if b.mode = Mode.Edit then b.edit_steps ks else none
    | none => none

/-- The selection, if present, is a valid index into the task sequence. -/
def App.selValid (a : App) : Bool :=
  match a.list.state.selected with
  | none => true
  | some i => decide (i < a.list.items.length)

/-- Observation of the controller-state fields a claim inspects: mode,
title buffer, detail buffer, edit target, active field. -/
def App.observe (a : App) :
    Mode × List Char × List Char × Option Nat × CurrentlyEditing :=
  (a.mode, a.title_field, a.info_field, a.editing_existing_item.index,
    a.currently_editing)

/-- Observation of the current selection. -/
def App.selectionOf (a : App) : Option Nat :=
  a.list.state.selected

/-- Concrete task used in witnesses. -/
def task_a : Task := Task.new Status.Upcoming ['a'] []

/-- Concrete task used in witnesses. -/
def task_b : Task := Task.new Status.Active ['b'] ['m']

/-- Concrete View-mode state with two tasks and the second selected. -/
def sampleView : App :=
  { App.default with
    list := { items := [task_a, task_b], state := { selected := some 1 } } }

/-- Concrete Edit-mode state of a new-task session with typed buffers and
the Detail field active. -/
def sampleEditNew : App :=
  { App.default with
    mode := Mode.Edit, currently_editing := CurrentlyEditing.Info,
    title_field := ['t'], info_field := ['d'] }

/-- Concrete Edit-mode state revising the first task of sampleView with
typed buffers and the Detail field active. -/
def sampleEditExisting : App :=
  { sampleEditNew with
    editing_existing_item := { index := some 0 }, list := sampleView.list }

/-- Concrete Edit-mode state with an empty title buffer and the Detail
field active. -/
def sampleEditEmptyTitle : App :=
  { App.default with
    mode := Mode.Edit, currently_editing := CurrentlyEditing.Info,
    info_field := ['d'] }

lemma selValid_iff (a : App) :
    a.selValid = true ↔ ∀ i, a.list.state.selected = some i → i < a.list.items.length := by
  unfold App.selValid
  cases h : a.list.state.selected <;> simp [h]

lemma selValid_of_list_eq (a b : App) (h : b.list = a.list) :
    b.selValid = a.selValid := by
  unfold App.selValid
  rw [h]

lemma render_clamp_selected_lt (l : TodoList) (i : Nat)
    (h : (l.render_clamp).selected = some i) : i < l.items.length := by
  unfold TodoList.render_clamp at h
  split at h
  · simp [ListState.select] at h
  · next hne =>
    have h0 : l.items.length ≠ 0 := by
      simpa [List.isEmpty_iff_length_eq_zero] using hne
    split at h
    · next j hj =>
      split at h
      · simp [ListState.select] at h
        omega
      · next hlt =>
        rw [hj] at h
        simp at h
        omega
    · next hnone =>
      rw [hnone] at h
      simp at h

lemma draw_selValid_view (b : App) (h : b.mode = Mode.View) :
    b.draw.selValid = true := by
  unfold App.draw
  rw [h, selValid_iff]
  intro i hi
  exact render_clamp_selected_lt b.list i hi

lemma handle_list_eq_of_ne (s b : App) (k : KeyCode)
    (hb : s.handle_key_events k = some b) (hm : b.mode ≠ Mode.View) :
    b.list = s.list := by
  unfold App.handle_key_events App.edit_task App.delete_task App.toggle_status
    App.toggle_editing_field at hb
  repeat' split at hb
  all_goals try rcases Option.map_eq_some'.mp hb with ⟨c, hc, rfl⟩
  all_goals try cases hb
  all_goals simp_all

lemma draw_eq_of_ne (b : App) (h : b.mode ≠ Mode.View) : b.draw = b := by
  unfold App.draw
  cases hb : b.mode
  · exact absurd hb h
  · rfl
  · rfl

lemma handle_view_d (s : App) (hm : s.mode = Mode.View) :
    s.handle_key_events (KeyCode.char 'd') = s.delete_task := by
  unfold App.handle_key_events
  rw [hm]
  rfl

lemma handle_view_j (s : App) (hm : s.mode = Mode.View) :
    s.handle_key_events (KeyCode.char 'j') =
      some { s with list := { s.list with state := s.list.state.select_next } } := by
  unfold App.handle_key_events
  rw [hm]
  rfl

lemma handle_view_k (s : App) (hm : s.mode = Mode.View) :
    s.handle_key_events (KeyCode.char 'k') =
      some { s with list := { s.list with state := s.list.state.select_previous } } := by
  unfold App.handle_key_events
  rw [hm]
  rfl

lemma handle_view_t (s : App) (hm : s.mode = Mode.View) :
    s.handle_key_events (KeyCode.char 't') = s.toggle_status := by
  unfold App.handle_key_events
  rw [hm]
  rfl

lemma handle_edit_esc (s : App) (hm : s.mode = Mode.Edit) :
    s.handle_key_events KeyCode.esc = some { s with mode := Mode.View } := by
  unfold App.handle_key_events
  rw [hm]

lemma draw_view (b : App) (h : b.mode = Mode.View) :
    b.draw = { b with list := { b.list with state := b.list.render_clamp } } := by
  unfold App.draw
  rw [h]

lemma step_selValid (s s' : App) (k : KeyCode)
    (hv : s.selValid = true) (h : s.step k = some s') : s'.selValid = true := by
  unfold App.step at h
  rcases Option.map_eq_some'.mp h with ⟨b, hb, hbd⟩
  by_cases hm : b.mode = Mode.View
  · rw [← hbd]
    exact draw_selValid_view b hm
  · rw [← hbd, draw_eq_of_ne b hm,
      selValid_of_list_eq s b (handle_list_eq_of_ne s b k hb hm)]
    exact hv

/-- C1: the selection, if present, is a valid index into the task
sequence after every event step (each key press followed by the redraw
that the run loop performs before reading the next event); it holds in
the initial state, is preserved by every step, and after the delete key
removes the task at the selected index the selection is recomputed by the
redraw: absent when the removed task was the only remaining element,
otherwise the same numeric index clamped to the new last index. -/
theorem selection_invariant :
    App.default.selValid = true ∧
    (∀ (s s' : App) (k : KeyCode),
      s.selValid = true → s.step k = some s' → s'.selValid = true) ∧
    (∀ (s : App) (i : Nat), s.mode = Mode.View →
      s.list.state.selected = some i → i < s.list.items.length →
      ∃ s', s.step (KeyCode.char 'd') = some s' ∧
        s'.list.items = s.list.items.eraseIdx i ∧
        s'.list.state.selected =
          (if s.list.items.length = 1 then none
           else some (min i (s.list.items.length - 2)))) := by
  refine ⟨rfl, step_selValid, ?_⟩
  intro s i hm hsel hlen
  unfold App.step
  rw [handle_view_d s hm]
  unfold App.delete_task
  rw [hsel]
  simp only [hlen, if_true]
  simp only [Option.map_some']
  have hbmode :
      ({ s with list := { s.list with items := s.list.items.eraseIdx i } } : App).mode =
        Mode.View := hm
  rw [draw_view _ hbmode]
  refine ⟨_, rfl, rfl, ?_⟩
  simp only [TodoList.render_clamp, ListState.select]
  have herase : (s.list.items.eraseIdx i).length = s.list.items.length - 1 := by
    rw [List.length_eraseIdx]
    simp [hlen]
  by_cases h1 : s.list.items.length = 1
  · have hemp : (s.list.items.eraseIdx i).isEmpty = true := by
      rw [List.isEmpty_iff_length_eq_zero, herase, h1]
    rw [if_pos hemp, if_pos h1]
  · have hemp : ¬((s.list.items.eraseIdx i).isEmpty = true) := by
      rw [List.isEmpty_iff_length_eq_zero, herase]
      omega
    rw [if_neg hemp, if_neg h1, hsel]
    by_cases hle : (s.list.items.eraseIdx i).length ≤ i
    · show (if (s.list.items.eraseIdx i).length ≤ i then
          s.list.state.select (some ((s.list.items.eraseIdx i).length - 1))
        else s.list.state).selected = some (min i (s.list.items.length - 2))
      rw [if_pos hle]
      show some ((s.list.items.eraseIdx i).length - 1) =
        some (min i (s.list.items.length - 2))
      rw [herase] at hle ⊢
      congr 1
      omega
    · show (if (s.list.items.eraseIdx i).length ≤ i then
          s.list.state.select (some ((s.list.items.eraseIdx i).length - 1))
        else s.list.state).selected = some (min i (s.list.items.length - 2))
      rw [if_neg hle, hsel]
      rw [herase] at hle
      congr 1
      omega

/-- Witness for C1 at a concrete two-task store with the last task
selected: the invariant holds and deleting recomputes the selection. -/
theorem selection_invariant_witness :
    sampleView.selValid = true ∧
    (∃ s', sampleView.step (KeyCode.char 'd') = some s' ∧
      s'.list.items = sampleView.list.items.eraseIdx 1 ∧
      s'.list.state.selected =
        (if sampleView.list.items.length = 1 then none
         else some (min 1 (sampleView.list.items.length - 2)))) :=
  ⟨selection_invariant.2.1 sampleView sampleView (KeyCode.char 'j')
      (by decide) (by decide),
    selection_invariant.2.2 sampleView 1 rfl rfl (by decide)⟩

/-- C2 (code bug evidence): from the initial state, create a task, select
it, open it for editing, cancel with Esc, then press the new-task key.
The handler only switches the mode to Edit, so the session starts with
the leftover title buffer of the cancelled session and the stale edit
target, not with empty buffers and an absent target. -/
theorem new_task_key_stale_session :
    (App.default.run_keys [KeyCode.char 'n', KeyCode.char 'a', KeyCode.enter,
      KeyCode.enter, KeyCode.char 'j', KeyCode.char 'e', KeyCode.esc,
      KeyCode.char 'n']).map App.observe =
      some (Mode.Edit, ['a'], [], some 0, CurrentlyEditing.Title) := by
  decide

/-- C3 (code bug evidence): cancelling an Edit session with Esc leaves
the typed title buffer in place, and confirming on the Detail field with
an empty title leaves the typed detail buffer and the active field in
place; in neither exit is the session discarded. -/
theorem edit_exit_keeps_buffers :
    (App.default.run_keys [KeyCode.char 'n', KeyCode.char 'x',
        KeyCode.esc]).map App.observe =
      some (Mode.View, ['x'], [], none, CurrentlyEditing.Title) ∧
    (App.default.run_keys [KeyCode.char 'n', KeyCode.tab, KeyCode.char 'y',
        KeyCode.enter]).map App.observe =
      some (Mode.View, [], ['y'], none, CurrentlyEditing.Info) :=
  ⟨by decide, by decide⟩

/-- C5 (code bug evidence): the out-of-range access in the commit path is
reachable from the initial state: create a task, select it, open it for
editing, cancel with Esc (which keeps the stale target index and title
buffer), delete the task, press the new-task key and confirm twice; the
commit then indexes the now-empty task list at the stale index 0, a Rust
panic, modelled as none. -/
theorem commit_out_of_range_reachable :
    App.default.run_keys [KeyCode.char 'n', KeyCode.char 'a', KeyCode.enter,
      KeyCode.enter, KeyCode.char 'j', KeyCode.char 'e', KeyCode.esc,
      KeyCode.char 'd', KeyCode.char 'n', KeyCode.enter, KeyCode.enter] =
      none := by
  decide

/-- C4 counterexample: with two tasks and the last one selected (reached
from the initial state by creating two tasks and moving down twice),
pressing move-down again leaves the selection at the last index 1; it
does not wrap around to index 0 as the claim states. -/
theorem select_next_no_wraparound :
    (App.default.run_keys [KeyCode.char 'n', KeyCode.char 'a', KeyCode.enter,
        KeyCode.enter, KeyCode.char 'n', KeyCode.char 'b', KeyCode.enter,
        KeyCode.enter, KeyCode.char 'j', KeyCode.char 'j',
        KeyCode.char 'j']).map App.selectionOf = some (some 1) ∧
    (App.default.run_keys [KeyCode.char 'n', KeyCode.char 'a', KeyCode.enter,
        KeyCode.enter, KeyCode.char 'n', KeyCode.char 'b', KeyCode.enter,
        KeyCode.enter, KeyCode.char 'j', KeyCode.char 'j',
        KeyCode.char 'j']).map App.selectionOf ≠ some (some 0) :=
  ⟨by decide, by decide⟩

lemma step_view_j (s : App) (hm : s.mode = Mode.View) :
    s.step (KeyCode.char 'j') = some
      { s with list := { s.list with state :=
          ({ s.list with state := s.list.state.select_next } : TodoList).render_clamp } } := by
  unfold App.step
  rw [handle_view_j s hm]
  simp only [Option.map_some']
  have hb : ({ s with list := { s.list with state := s.list.state.select_next } } : App).mode =
      Mode.View := hm
  rw [draw_view _ hb]

lemma step_view_k (s : App) (hm : s.mode = Mode.View) :
    s.step (KeyCode.char 'k') = some
      { s with list := { s.list with state :=
          ({ s.list with state := s.list.state.select_previous } : TodoList).render_clamp } } := by
  unfold App.step
  rw [handle_view_k s hm]
  simp only [Option.map_some']
  have hb : ({ s with list := { s.list with state := s.list.state.select_previous } } : App).mode =
      Mode.View := hm
  rw [draw_view _ hb]

/-- C4 amended: in View mode (with a valid selection and a list that fits
in usize), the move keys move the selection by one position, saturating
at the ends of the sequence instead of wrapping around; on an empty
sequence the selection stays absent; from an absent selection on a
non-empty sequence, move-down selects index 0 and move-up selects the
last index. -/
theorem select_move_saturates :
    ∀ s : App, s.mode = Mode.View → s.selValid = true →
      s.list.items.length ≤ USIZE_MAX →
      (s.list.items = [] →
        (∃ s', s.step (KeyCode.char 'j') = some s' ∧
          s'.list.state.selected = none) ∧
        (∃ s', s.step (KeyCode.char 'k') = some s' ∧
          s'.list.state.selected = none)) ∧
      (s.list.items ≠ [] → s.list.state.selected = none →
        (∃ s', s.step (KeyCode.char 'j') = some s' ∧
          s'.list.state.selected = some 0) ∧
        (∃ s', s.step (KeyCode.char 'k') = some s' ∧
          s'.list.state.selected = some (s.list.items.length - 1))) ∧
      (∀ i : Nat, s.list.state.selected = some i →
        (∃ s', s.step (KeyCode.char 'j') = some s' ∧
          s'.list.state.selected = some (min (i + 1) (s.list.items.length - 1))) ∧
        (∃ s', s.step (KeyCode.char 'k') = some s' ∧
          s'.list.state.selected = some (i - 1))) := by
  intro s hm hv hle
  refine ⟨?_, ?_, ?_⟩
  · intro hempty
    have hsel : s.list.state.selected = none := by
      cases h : s.list.state.selected with
      | none => rfl
      | some i =>
        have := (selValid_iff s).mp hv i h
        rw [hempty] at this
        simp at this
    constructor
    · refine ⟨_, step_view_j s hm, ?_⟩
      simp [TodoList.render_clamp, ListState.select_next, ListState.select, hsel, hempty]
    · refine ⟨_, step_view_k s hm, ?_⟩
      simp [TodoList.render_clamp, ListState.select_previous, ListState.select, hsel, hempty]
  · intro hne hsel
    have hlen : s.list.items.length ≠ 0 := by
      simpa [← List.length_eq_zero] using hne
    constructor
    · refine ⟨_, step_view_j s hm, ?_⟩
      simp only [TodoList.render_clamp, ListState.select_next, ListState.select, hsel]
      rw [if_neg (by simpa using hne)]
      rw [if_neg (by omega)]
    · refine ⟨_, step_view_k s hm, ?_⟩
      simp only [TodoList.render_clamp, ListState.select_previous, ListState.select, hsel]
      rw [if_neg (by simpa using hne)]
      rw [if_pos (show s.list.items.length ≤ USIZE_MAX from hle)]
  · intro i hsel
    have hilt : i < s.list.items.length := (selValid_iff s).mp hv i hsel
    have hlen : s.list.items.length ≠ 0 := by omega
    have hne : s.list.items ≠ [] := by
      intro h
      rw [h] at hilt
      simp at hilt
    constructor
    · refine ⟨_, step_view_j s hm, ?_⟩
      simp only [TodoList.render_clamp, ListState.select_next, ListState.select, hsel]
      rw [if_neg (by simpa using hne)]
      have hmin : min (i + 1) USIZE_MAX = i + 1 := by
        unfold USIZE_MAX at hle ⊢
        omega
      rw [hmin]
      by_cases hcl : s.list.items.length ≤ i + 1
      · rw [if_pos hcl]
        show some (s.list.items.length - 1) = some (min (i + 1) (s.list.items.length - 1))
        congr 1
        omega
      · rw [if_neg hcl]
        show some (i + 1) = some (min (i + 1) (s.list.items.length - 1))
        congr 1
        omega
    · refine ⟨_, step_view_k s hm, ?_⟩
      simp only [TodoList.render_clamp, ListState.select_previous, ListState.select, hsel]
      rw [if_neg (by simpa using hne)]
      rw [if_neg (by omega)]

/-- Witness for the amended C4 at a concrete two-task store with the last
task selected: move-down keeps the selection at the last index, move-up
moves it to the first. -/
theorem select_move_saturates_witness :
    (∃ s', sampleView.step (KeyCode.char 'j') = some s' ∧
      s'.list.state.selected = some (min (1 + 1) (sampleView.list.items.length - 1))) ∧
    (∃ s', sampleView.step (KeyCode.char 'k') = some s' ∧
      s'.list.state.selected = some (1 - 1)) :=
  (select_move_saturates sampleView rfl (by decide) (by decide)).2.2 1 rfl

lemma handle_edit_enter_info (s : App) (hm : s.mode = Mode.Edit)
    (hc : s.currently_editing = CurrentlyEditing.Info) :
    s.handle_key_events KeyCode.enter =
      (s.new_task).map (fun b => { b with mode := Mode.View }) := by
  unfold App.handle_key_events
  rw [hm, hc]

lemma draw_preserves (b : App) :
    b.draw.list.items = b.list.items ∧ b.draw.mode = b.mode ∧
    b.draw.title_field = b.title_field ∧ b.draw.info_field = b.info_field ∧
    b.draw.currently_editing = b.currently_editing ∧
    b.draw.editing_existing_item = b.editing_existing_item ∧
    b.draw.exit = b.exit := by
  unfold App.draw
  cases h : b.mode <;> simp [h]

lemma step_items_of_handle (s b : App) (k : KeyCode)
    (hb : s.handle_key_events k = some b) :
    ∃ s', s.step k = some s' ∧ s'.list.items = b.list.items ∧
      s'.mode = b.mode := by
  unfold App.step
  rw [hb]
  simp only [Option.map_some']
  exact ⟨_, rfl, (draw_preserves b).1, (draw_preserves b).2.1⟩

/-- C7: confirming on the Detail field with an empty title buffer creates
and updates nothing: the task sequence is exactly unchanged and the mode
returns to View. -/
theorem commit_empty_title_noop :
    ∀ s : App, s.mode = Mode.Edit → s.currently_editing = CurrentlyEditing.Info →
      s.title_field = [] →
      ∃ s', s.step KeyCode.enter = some s' ∧
        s'.list.items = s.list.items ∧ s'.mode = Mode.View := by
  intro s hm hc hemp
  have hnew : s.new_task = some s := by
    unfold App.new_task
    rw [if_pos (by rw [List.isEmpty_iff]; exact hemp)]
  have hh : s.handle_key_events KeyCode.enter = some { s with mode := Mode.View } := by
    rw [handle_edit_enter_info s hm hc, hnew]
    rfl
  obtain ⟨s', hs', hitems, hmode⟩ := step_items_of_handle s _ KeyCode.enter hh
  exact ⟨s', hs', by rw [hitems], by rw [hmode]⟩

/-- Witness for C7 at a concrete Edit-mode state with an empty title and
a typed detail buffer. -/
theorem commit_empty_title_noop_witness :
    ∃ s', sampleEditEmptyTitle.step KeyCode.enter = some s' ∧
      s'.list.items = sampleEditEmptyTitle.list.items ∧ s'.mode = Mode.View :=
  commit_empty_title_noop sampleEditEmptyTitle rfl rfl rfl

/-- C6: confirming on the Detail field with a non-empty title buffer and
an absent target appends exactly one new task at the end of the sequence
with status Upcoming and the typed title and detail; with a (valid)
present target it replaces in place only the title and detail of the task
at the target index, leaving its status and the task count unchanged. -/
theorem commit_nonempty_title_spec :
    ∀ s : App, s.mode = Mode.Edit → s.currently_editing = CurrentlyEditing.Info →
      s.title_field ≠ [] →
      (s.editing_existing_item.index = none →
        ∃ s', s.step KeyCode.enter = some s' ∧
          s'.list.items =
            s.list.items ++ [Task.new Status.Upcoming s.title_field s.info_field]) ∧
      (∀ i : Nat, s.editing_existing_item.index = some i →
        ∀ h : i < s.list.items.length,
        ∃ s', s.step KeyCode.enter = some s' ∧
          s'.list.items = s.list.items.set i ({ s.list.items.get ⟨i, h⟩ with title := s.title_field, info := s.info_field }) ∧
          s'.list.items.length = s.list.items.length) := by
  intro s hm hc hne
  have hnotemp : ¬(s.title_field.isEmpty = true) := by
    rw [List.isEmpty_iff]
    exact hne
  constructor
  · intro hidx
    have hnew : s.new_task = some { s with
        list := { s.list with items :=
          s.list.items ++ [Task.new Status.Upcoming s.title_field s.info_field] },
        title_field := [], info_field := [],
        currently_editing := CurrentlyEditing.Title,
        editing_existing_item := { index := none } } := by
      unfold App.new_task
      rw [if_neg hnotemp, hidx]
    have hh : s.handle_key_events KeyCode.enter = some { s with
        list := { s.list with items :=
          s.list.items ++ [Task.new Status.Upcoming s.title_field s.info_field] },
        title_field := [], info_field := [],
        currently_editing := CurrentlyEditing.Title,
        editing_existing_item := { index := none },
        mode := Mode.View } := by
      rw [handle_edit_enter_info s hm hc, hnew]
      rfl
    obtain ⟨s', hs', hitems, _⟩ := step_items_of_handle s _ KeyCode.enter hh
    exact ⟨s', hs', by rw [hitems]⟩
  · intro i hidx h
    have hnew : s.new_task = some { s with
        list := { s.list with items := s.list.items.set i ({ s.list.items.get ⟨i, h⟩ with title := s.title_field, info := s.info_field }) },
        title_field := [], info_field := [],
        currently_editing := CurrentlyEditing.Title,
        editing_existing_item := { index := none } } := by
      unfold App.new_task
      rw [if_neg hnotemp]
      simp only [hidx]
      rw [dif_pos h]
    have hh : s.handle_key_events KeyCode.enter = some { s with
        list := { s.list with items := s.list.items.set i ({ s.list.items.get ⟨i, h⟩ with title := s.title_field, info := s.info_field }) },
        title_field := [], info_field := [],
        currently_editing := CurrentlyEditing.Title,
        editing_existing_item := { index := none },
        mode := Mode.View } := by
      rw [handle_edit_enter_info s hm hc, hnew]
      rfl
    obtain ⟨s', hs', hitems, _⟩ := step_items_of_handle s _ KeyCode.enter hh
    refine ⟨s', hs', by rw [hitems], ?_⟩
    rw [hitems]
    exact List.length_set s.list.items i _

/-- Witness for C6: committing a concrete new-task session appends the
typed task; committing a concrete edit session on the first of two tasks
replaces its title and detail in place. -/
theorem commit_nonempty_title_spec_witness :
    (∃ s', sampleEditNew.step KeyCode.enter = some s' ∧
      s'.list.items = sampleEditNew.list.items ++
        [Task.new Status.Upcoming sampleEditNew.title_field
          sampleEditNew.info_field]) ∧
    (∃ s', sampleEditExisting.step KeyCode.enter = some s' ∧
      s'.list.items = sampleEditExisting.list.items.set 0 ({ sampleEditExisting.list.items.get ⟨0, by decide⟩ with title := sampleEditExisting.title_field, info := sampleEditExisting.info_field }) ∧
      s'.list.items.length = sampleEditExisting.list.items.length) :=
  ⟨(commit_nonempty_title_spec sampleEditNew rfl rfl (by decide)).1 rfl,
    (commit_nonempty_title_spec sampleEditExisting rfl rfl (by decide)).2 0 rfl
      (by decide)⟩

lemma render_clamp_set (l : TodoList) (i : Nat) (t : Task)
    (hsel : l.state.selected = some i) (h : i < l.items.length) :
    ({ l with items := l.items.set i t } : TodoList).render_clamp = l.state := by
  have hlen : (l.items.set i t).length = l.items.length := List.length_set l.items i t
  unfold TodoList.render_clamp
  rw [if_neg (by rw [List.isEmpty_iff_length_eq_zero, hlen]; omega)]
  simp only [hsel]
  rw [if_neg (by rw [hlen]; omega)]

lemma toggle_step_eq (s : App) (i : Nat) (hm : s.mode = Mode.View)
    (hsel : s.list.state.selected = some i) (h : i < s.list.items.length) :
    s.step (KeyCode.char 't') = some { s with list := { s.list with
      items := s.list.items.set i ({ s.list.items.get ⟨i, h⟩ with status := cycleStatus (s.list.items.get ⟨i, h⟩).status }) } } := by
  unfold App.step
  rw [handle_view_t s hm]
  unfold App.toggle_status
  simp only [hsel]
  rw [dif_pos h]
  simp only [Option.map_some']
  have hb : ({ s with list := { s.list with
      items := s.list.items.set i ({ s.list.items.get ⟨i, h⟩ with status := cycleStatus (s.list.items.get ⟨i, h⟩).status }) } } : App).mode =
      Mode.View := hm
  rw [draw_view _ hb]
  rw [render_clamp_set s.list i _ hsel h]

lemma toggle_step_status (s : App) (i : Nat) (hm : s.mode = Mode.View)
    (hsel : s.list.state.selected = some i) (h : i < s.list.items.length) :
    ∃ s', s.step (KeyCode.char 't') = some s' ∧ s'.mode = Mode.View ∧
      s'.list.state.selected = some i ∧
      s'.list.items.length = s.list.items.length ∧
      ∃ h' : i < s'.list.items.length,
        (s'.list.items.get ⟨i, h'⟩).status =
          cycleStatus ((s.list.items.get ⟨i, h⟩).status) := by
  refine ⟨_, toggle_step_eq s i hm hsel h, hm, hsel, ?_, ?_, ?_⟩
  · exact List.length_set s.list.items i _
  · rw [List.length_set]
    exact h
  · rw [List.get_eq_getElem, List.getElem_set_self]

/-- C8: the toggle-status key advances the selected task's status along
the fixed cycle Upcoming, Active, Completed, back to Upcoming: the cycle
closes after three applications, each step advances the selected task by
one cycle position, three steps return the selected task to its original
status, and the operation is a no-op when nothing is selected. -/
theorem cycle_status_spec :
    (∀ st : Status, cycleStatus (cycleStatus (cycleStatus st)) = st) ∧
    (∀ (s : App) (i : Nat) (h : i < s.list.items.length),
      s.mode = Mode.View → s.list.state.selected = some i →
      ∃ s₁ s₂ s₃,
        s.step (KeyCode.char 't') = some s₁ ∧
        s₁.step (KeyCode.char 't') = some s₂ ∧
        s₂.step (KeyCode.char 't') = some s₃ ∧
        (∃ h₁ : i < s₁.list.items.length,
          (s₁.list.items.get ⟨i, h₁⟩).status =
            cycleStatus ((s.list.items.get ⟨i, h⟩).status)) ∧
        (∃ h₃ : i < s₃.list.items.length,
          (s₃.list.items.get ⟨i, h₃⟩).status =
            (s.list.items.get ⟨i, h⟩).status)) ∧
    (∀ s : App, s.mode = Mode.View → s.list.state.selected = none →
      s.step (KeyCode.char 't') = some s) := by
  refine ⟨?_, ?_, ?_⟩
  · intro st
    cases st <;> rfl
  · intro s i h hm hsel
    obtain ⟨s1, hstep1, hm1, hsel1, _, h1, hst1⟩ := toggle_step_status s i hm hsel h
    obtain ⟨s2, hstep2, hm2, hsel2, _, h2, hst2⟩ := toggle_step_status s1 i hm1 hsel1 h1
    obtain ⟨s3, hstep3, _, _, _, h3, hst3⟩ := toggle_step_status s2 i hm2 hsel2 h2
    refine ⟨s1, s2, s3, hstep1, hstep2, hstep3, ⟨h1, hst1⟩, ⟨h3, ?_⟩⟩
    rw [hst3, hst2, hst1]
    cases (s.list.items.get ⟨i, h⟩).status <;> rfl
  · intro s hm hsel
    unfold App.step
    rw [handle_view_t s hm]
    unfold App.toggle_status
    simp only [hsel]
    simp only [Option.map_some']
    rw [draw_view s hm]
    have hcl : s.list.render_clamp = s.list.state := by
      unfold TodoList.render_clamp
      split
      · unfold ListState.select
        rw [← hsel]
      · rw [hsel]
    rw [hcl]

/-- Witness for C8 at a concrete two-task store with the second task
(status Active) selected: three toggle steps return its status to
Active. -/
theorem cycle_status_spec_witness :
    ∃ s₁ s₂ s₃,
      sampleView.step (KeyCode.char 't') = some s₁ ∧
      s₁.step (KeyCode.char 't') = some s₂ ∧
      s₂.step (KeyCode.char 't') = some s₃ ∧
      (∃ h₁ : 1 < s₁.list.items.length,
        (s₁.list.items.get ⟨1, h₁⟩).status =
          cycleStatus ((sampleView.list.items.get ⟨1, by decide⟩).status)) ∧
      (∃ h₃ : 1 < s₃.list.items.length,
        (s₃.list.items.get ⟨1, h₃⟩).status =
          (sampleView.list.items.get ⟨1, by decide⟩).status) :=
  cycle_status_spec.2.1 sampleView 1 (by decide) rfl rfl

/-- C10: the toggle-status key modifies only the status field of the
selected task: its title and detail, every other task, the task count,
the selection state, the mode, the edit buffers, the edit target, the
active field and the exit flag are all unchanged. -/
theorem toggle_status_frame :
    ∀ (s : App) (i : Nat) (h : i < s.list.items.length),
      s.mode = Mode.View → s.list.state.selected = some i →
      ∃ s', s.step (KeyCode.char 't') = some s' ∧
        s'.list.items.length = s.list.items.length ∧
        (∃ h' : i < s'.list.items.length,
          (s'.list.items.get ⟨i, h'⟩).title = (s.list.items.get ⟨i, h⟩).title ∧
          (s'.list.items.get ⟨i, h'⟩).info = (s.list.items.get ⟨i, h⟩).info) ∧
        (∀ (j : Nat) (hj : j < s.list.items.length)
          (hj' : j < s'.list.items.length), j ≠ i →
          s'.list.items.get ⟨j, hj'⟩ = s.list.items.get ⟨j, hj⟩) ∧
        s'.list.state = s.list.state ∧
        s'.mode = s.mode ∧
        s'.title_field = s.title_field ∧
        s'.info_field = s.info_field ∧
        s'.currently_editing = s.currently_editing ∧
        s'.editing_existing_item = s.editing_existing_item ∧
        s'.exit = s.exit := by
  intro s i h hm hsel
  refine ⟨_, toggle_step_eq s i hm hsel h, List.length_set s.list.items i _,
    ?_, ?_, rfl, rfl, rfl, rfl, rfl, rfl, rfl⟩
  · refine ⟨by rw [List.length_set]; exact h, ?_, ?_⟩
    · rw [List.get_eq_getElem, List.getElem_set_self]
    · rw [List.get_eq_getElem, List.getElem_set_self]
  · intro j hj hj' hne
    exact List.getElem_set_ne (by omega) hj'

/-- Witness for C10 at a concrete two-task store with the second task
selected. -/
theorem toggle_status_frame_witness :
    ∃ s', sampleView.step (KeyCode.char 't') = some s' ∧
      s'.list.items.length = sampleView.list.items.length ∧
      (∃ h' : 1 < s'.list.items.length,
        (s'.list.items.get ⟨1, h'⟩).title =
          (sampleView.list.items.get ⟨1, by decide⟩).title ∧
        (s'.list.items.get ⟨1, h'⟩).info =
          (sampleView.list.items.get ⟨1, by decide⟩).info) ∧
      (∀ (j : Nat) (hj : j < sampleView.list.items.length)
        (hj' : j < s'.list.items.length), j ≠ 1 →
        s'.list.items.get ⟨j, hj'⟩ = sampleView.list.items.get ⟨j, hj⟩) ∧
      s'.list.state = sampleView.list.state ∧
      s'.mode = sampleView.mode ∧
      s'.title_field = sampleView.title_field ∧
      s'.info_field = sampleView.info_field ∧
      s'.currently_editing = sampleView.currently_editing ∧
      s'.editing_existing_item = sampleView.editing_existing_item ∧
      s'.exit = sampleView.exit :=
  toggle_status_frame sampleView 1 (by decide) rfl rfl

lemma edit_step_items (s b : App) (k : KeyCode) (hm : s.mode = Mode.Edit)
    (h : s.step k = some b) (hb : b.mode = Mode.Edit) :
    b.list.items = s.list.items := by
  unfold App.step at h
  rcases Option.map_eq_some'.mp h with ⟨c, hc, hcd⟩
  have hci : b.list.items = c.list.items := by
    rw [← hcd]
    exact (draw_preserves c).1
  have hcm : c.mode = Mode.Edit := by
    rw [← (draw_preserves c).2.1, hcd]
    exact hb
  rw [hci]
  unfold App.handle_key_events App.toggle_editing_field at hc
  rw [hm] at hc
  split at hc
  all_goals try split at hc
  all_goals try cases hc
  all_goals try cases hq : s.currently_editing
  all_goals simp_all
  all_goals try (rw [← hc])
  all_goals obtain ⟨d, hd, hdc⟩ := hc
  all_goals rw [← hdc] at hcm
  all_goals simp at hcm

lemma edit_steps_esc (s : App) (hm : s.mode = Mode.Edit) :
    ∃ t, s.step KeyCode.esc = some t ∧ t.list.items = s.list.items ∧
      t.mode = Mode.View := by
  unfold App.step
  rw [handle_edit_esc s hm]
  simp only [Option.map_some']
  exact ⟨_, rfl, (draw_preserves _).1, (draw_preserves _).2.1⟩

/-- C9: from any Edit-mode state, after any sequence of key events each
of which leaves the interface still in Edit mode, pressing the cancel key
returns to View with the task sequence exactly identical to its state
when the sequence started. -/
theorem cancel_edit_preserves_items :
    ∀ (ks : List KeyCode) (s s' : App), s.mode = Mode.Edit →
      s.edit_steps ks = some s' →
      ∃ t, s'.step KeyCode.esc = some t ∧ t.list.items = s.list.items ∧
        t.mode = Mode.View := by
  intro ks
  induction ks with
  | nil =>
    intro s s' hm h
    cases h
    exact edit_steps_esc s hm
  | cons k ks ih =>
    intro s s' hm h
    unfold App.edit_steps at h
    split at h
    · next b heq =>
      by_cases hbm : b.mode = Mode.Edit
      · rw [if_pos hbm] at h
        obtain ⟨t, ht, hti, htm⟩ := ih b s' hbm h
        exact ⟨t, ht, by rw [hti, edit_step_items s b k hm heq hbm], htm⟩
      · rw [if_neg hbm] at h
        simp at h
    · simp at h

/-- Witness for C9: a concrete Edit-mode session, after typing one more
character, is cancelled with Esc and the task sequence is unchanged. -/
theorem cancel_edit_preserves_items_witness :
    ∃ t, ({ sampleEditNew with
        info_field := sampleEditNew.info_field ++ ['z'] } : App).step
          KeyCode.esc = some t ∧
      t.list.items = sampleEditNew.list.items ∧ t.mode = Mode.View :=
  cancel_edit_preserves_items [KeyCode.char 'z'] sampleEditNew
    { sampleEditNew with info_field := sampleEditNew.info_field ++ ['z'] }
    rfl (by decide)

end Ratatodo
